import Mathlib

/-!
# Kanji_FlashCard: the deck session of `main.js`

A shallow embedding of the session logic of `src/main.js`: the global `state`
object, the lesson-label derivation `uniqueSortedLessons`, and the four
operations `pickRandom`, `nextCard`, `rememberCard`, `buildLessonDeck`, with
the lesson menu handler that calls `buildLessonDeck`.

Modelling choices.
* `state.known` (a JavaScript `Set` that only ever receives deck positions) is a
  `Finset Nat`; `has`, `add`, `clear`, `size` are membership, `insert`, `∅`, `card`.
* `state.currentIdx` is `Option Nat`; `none` stands for `null`/`undefined`.
* One call of `Math.random()` is a value `num / den` with `num < den`, so that
  `Math.floor(Math.random() * n)` is `num * n / den` (exact arithmetic).
* Of the page, the model keeps what the session drives: the `hidden` class of
  `el.cardWrap` and `el.empty`, the message in `el.empty`, and the counters
  written by `updateMeta`. The texts of the card faces are not modelled.
-/

namespace KanjiFlashCard

/-! ## Spreadsheet cells and rows -/

/-- A cell value as delivered by the spreadsheet loader: a missing property,
`null`, a string, or a Number that is a non-negative integer. -/
inductive Cell where
  | undefined
  | null
  | str (s : String)
  | num (n : Nat)
deriving DecidableEq

/-- JavaScript `String(v)`. -/
def Cell.toStr : Cell → String
  | .undefined => "undefined"
  | .null => "null"
  | .str s => s
  | .num n => String.mk (Nat.toDigits 10 n)

/-- The test `/^\d+$/.test(t)`: `t` is a non-empty run of ASCII digits. -/
def allDigits (t : String) : Bool :=
  !t.data.isEmpty && t.data.all (fun c => decide ('0' ≤ c) && decide (c ≤ '9'))

/-- The decimal value of a run of ASCII digits. -/
def digitsValue (t : String) : Nat :=
  t.data.foldl (fun acc c => 10 * acc + (c.toNat - '0'.toNat)) 0

/-- JavaScript `Number(v)` on a label whose `String(v)` matches `^\d+$`, the only
labels line 36 applies it to: the decimal value of the digits. -/
def Cell.toNumber (v : Cell) : Nat :=
  match v with
  | .num n => n
  | v => digitsValue v.toStr

/-- A row after the loader's normalisation (line 176). -/
structure Row where
  Lesson : Cell
  HanZi : Cell
  Chinese : Cell
  Hiragana : Cell
deriving DecidableEq

/-! ## The random source -/

/-- One result of `Math.random()`: the number `num / den` of `[0, 1)`. -/
structure Rnd where
  num : Nat
  den : Nat
  lt_one : num < den

/-- The value of `Math.floor(Math.random() * n)`. -/
def Rnd.floorMul (u : Rnd) (n : Nat) : Nat := u.num * n / u.den

/-! ## Array helpers whose callback reads the index -/

/-- The array method `xs.filter((x, i) => f x i)`, the index counted from `k`. -/
def filterIdxFrom {α : Type} (f : α → Nat → Bool) : Nat → List α → List α
  | _, [] => []
  | k, x :: xs => if f x k then x :: filterIdxFrom f (k + 1) xs else filterIdxFrom f (k + 1) xs

/-- The array method `xs.every((x, i) => f x i)`, the index counted from `k`. -/
def everyIdxFrom {α : Type} (f : α → Nat → Bool) : Nat → List α → Bool
  | _, [] => true
  | k, x :: xs => f x k && everyIdxFrom f (k + 1) xs

/-! ## The page and the state object -/

/-- The messages the code writes into `el.empty`. -/
inductive EmptyText where
  /-- Whatever the element held before the session wrote to it. -/
  | initial
  /-- Line 187: pick a lesson from the menu. -/
  | chooseLesson
  /-- Lines 93 and 109: the whole lesson is remembered. -/
  | allRemembered
  /-- Line 130: the lesson has no rows. -/
  | noData
deriving DecidableEq

/-- The global `state` object (lines 2-12, with `filtered` added by
`buildLessonDeck`) and the part of the page the session writes to. -/
structure State where
  data : List Row
  lessons : List Cell
  currentLesson : Cell
  filtered : Option (List Row)
  indices : List Nat
  currentIdx : Option Nat
  known : Finset Nat
  flipped : Bool
  backField : Option String
  cardWrapHidden : Bool
  emptyHidden : Bool
  emptyText : EmptyText
  countText : Int × Nat
  knownText : Nat
deriving DecidableEq

/-- The state object as the script creates it (lines 2-12), on a fresh page. -/
def State.init : State where
  data := []
  lessons := []
  currentLesson := .null
  filtered := none
  indices := []
  currentIdx := none
  known := ∅
  flipped := false
  backField := none
  cardWrapHidden := false
  emptyHidden := false
  emptyText := .initial
  countText := (0, 0)
  knownText := 0

/-! ## Lesson labels (lines 31-38) -/

/-- The method `Set.prototype.add` on the insertion-ordered list of a `Set`. -/
def setAdd (s : List Cell) (v : Cell) : List Cell :=
  if v ∈ s then s else s ++ [v]

/-- The function `uniqueSortedLessons(rows)` (lines 31-38); `cmp a b` stands for
`a.localeCompare(b, ...) <= 0`, which depends on the host's collation. -/
def uniqueSortedLessons (cmp : String → String → Bool) (rows : List Row) : List Cell :=
  let s := rows.foldl
    (fun s r =>
      if r.Lesson ≠ .undefined ∧ r.Lesson ≠ .null ∧ r.Lesson ≠ .str "" then setAdd s r.Lesson
      else s) []
  let list := s
  let nums := list.all (fun v => allDigits v.toStr)
  if nums then ((list.map Cell.toNumber).insertionSort (· ≤ ·)).map Cell.num
  else list.insertionSort (fun a b => cmp a.toStr b.toStr = true)

/-! ## The session operations -/

/-- The value `total = state.indices.length` of line 41. -/
def State.total (s : State) : Nat := s.indices.length

/-- The value `remaining = total - state.known.size` of line 42. -/
def State.remaining (s : State) : Int := (s.total : Int) - (s.known.card : Int)

/-- The value `state.known.size`. -/
def State.knownCount (s : State) : Nat := s.known.card

/-- The function `updateMeta()` (lines 40-45). -/
def updateMeta (s : State) : State :=
  let total := s.indices.length
  let remaining : Int := (total : Int) - (s.known.card : Int)
  { s with countText := (remaining, total), knownText := s.known.card }

/-- The function `currentRow()` (lines 54-57). -/
def currentRow (s : State) : Option Row :=
  match s.filtered, s.currentIdx with
  | some rows, some i => rows[i]?
  | _, _ => none

/-- The function `showFront()` (lines 59-67); the card texts are not modelled. -/
def showFront (s : State) : State :=
  let s1 : State := { s with flipped := false, backField := none }
  match currentRow s1 with
  | none => s1
  | some _ => updateMeta s1

/-- The array `pool` of line 80: the entries of `state.indices` at the positions
that are not in `state.known`. -/
def State.pool (s : State) : List Nat :=
  filterIdxFrom (fun _ i => !decide (i ∈ s.known)) 0 s.indices

/-- The function `pickRandom()` (lines 78-87): the returned boolean and the new state. -/
def pickRandom (u : Rnd) (s : State) : Bool × State :=
  let pool := s.pool
  if pool.length = 0 then (false, s)
  else
    let rand := u.floorMul pool.length
    let chosenFilteredIdx := pool[rand]?
    (true, { s with currentIdx := chosenFilteredIdx })

/-- The function `nextCard()` (lines 89-98). -/
def nextCard (u : Rnd) (s : State) : State :=
  if s.indices.length = 0 then s
  else
    match pickRandom u s with
    | (false, s1) =>
      { s1 with cardWrapHidden := true, emptyText := .allRemembered, emptyHidden := false }
    | (true, s1) => showFront s1

/-- The function `rememberCard()` (lines 100-115). It has no `throw`; every path
ends in a normal return, written `Except.ok`. -/
def rememberCard (u : Rnd) (s : State) : Except String State :=
  match s.currentIdx with
  | none => .ok s
  | some idx =>
    let s1 : State := { s with known := insert idx s.known }
    let allKnown := everyIdxFrom (fun _ i => decide (i ∈ s1.known)) 0 s1.indices
    let s2 :=
      if allKnown then
        { s1 with cardWrapHidden := true, emptyText := .allRemembered, emptyHidden := false }
      else nextCard u s1
    .ok (updateMeta s2)

/-- The function `buildLessonDeck()` (lines 117-134). -/
def buildLessonDeck (u : Rnd) (s : State) : State :=
  let lesson := s.currentLesson
  let filtered := s.data.filter (fun r => r.Lesson.toStr == lesson.toStr)
  let s1 : State := { s with
    filtered := some filtered
    indices := List.range filtered.length
    known := ∅
    flipped := false
    backField := none
    currentIdx := none }
  let s2 :=
    if s1.indices.length ≠ 0 then
      nextCard u { s1 with emptyHidden := true, cardWrapHidden := false }
    else
      { s1 with cardWrapHidden := true, emptyText := .noData, emptyHidden := false }
  updateMeta s2

/-- The success path of `loadLevel` after the rows are read (lines 180-188). -/
def loadLevel (cmp : String → String → Bool) (rows : List Row) (s : State) : State :=
  { s with
    data := rows
    lessons := uniqueSortedLessons cmp rows
    currentLesson := .null
    emptyText := .chooseLesson
    cardWrapHidden := true }

/-- The `value` attributes `populateLessonOptions` gives the menu (lines 136-147):
the placeholder `''` and `String(ls)` for each lesson. -/
def lessonOptions (s : State) : List String :=
  "" :: s.lessons.map Cell.toStr

/-- The `change` handler of the lesson menu (lines 205-214), `v` being
`el.lesson.value`. -/
def onLessonChange (v : String) (u : Rnd) (s : State) : State :=
  if v = "" then { s with cardWrapHidden := true, emptyHidden := false }
  else buildLessonDeck u { s with currentLesson := .str v }

/-! ## Sequences of operations -/

/-- The operations of a session other than `buildLessonDeck`, each with the
result `Math.random()` gives if the operation draws. -/
inductive SessionOp where
  | pick (u : Rnd)
  | next (u : Rnd)
  | remember (u : Rnd)

/-- One operation on the state. -/
def SessionOp.apply : SessionOp → State → Except String State
  | .pick u, s => .ok (pickRandom u s).2
  | .next u, s => .ok (nextCard u s)
  | .remember u, s => rememberCard u s

/-- A sequence of operations, stopping at the first error. -/
def applyAll : List SessionOp → State → Except String State
  | [], s => .ok s
  | op :: ops, s =>
    match op.apply s with
    | .ok t => applyAll ops t
    | .error e => .error e

/-- Calls of `rememberCard` in a row, one for each random outcome of the list. -/
def rememberAll (us : List Rnd) (s : State) : Except String State :=
  applyAll (us.map SessionOp.remember) s

/-- The states a session passes through: those after a `buildLessonDeck`
from any state, closed under the session operations. -/
inductive Reachable : State → Prop where
  | build (u : Rnd) (s : State) : Reachable (buildLessonDeck u s)
  | step (op : SessionOp) (s t : State) : Reachable s → op.apply s = .ok t → Reachable t

/-! ## The states of the session -/

/-- The invariant of the data model: the Index Pool is `[0..N-1]` for the `N`
rows of the deck, the Known Set and the cursor lie in it. -/
def WellFormed (s : State) : Prop :=
  (∃ rows, s.filtered = some rows ∧ s.indices = List.range rows.length) ∧
  (∀ i ∈ s.known, i < s.indices.length) ∧
  (∀ i, s.currentIdx = some i → i < s.indices.length)

/-- The session is ACTIVE: the deck is not empty, some position is not yet
known, and the cursor is on a position that is not yet known. -/
def Active (s : State) : Prop :=
  0 < s.indices.length ∧ ∃ i, s.currentIdx = some i ∧ i < s.indices.length ∧ i ∉ s.known

/-- The session is COMPLETE: the deck is not empty and every position is known. -/
def Complete (s : State) : Prop :=
  0 < s.indices.length ∧ (∀ i, i < s.indices.length → i ∈ s.known) ∧
  s.knownCount = s.total ∧ s.remaining = 0


/-- The session after `k` of the `N` cards were remembered one after the other:
the Index Pool is `[0..N-1]`, the Known Set holds `k` of its positions, the
cursor is on a position not yet known while `k < N`, and once `k = N` the page
shows the completion message and the counters `0 / N`, `N`. -/
def DeckInv (N k : Nat) (s : State) : Prop :=
  s.indices = List.range N ∧ (∀ i ∈ s.known, i < N) ∧ s.known.card = k ∧
  (k < N → ∃ i, s.currentIdx = some i ∧ i < N ∧ i ∉ s.known) ∧
  (0 < N → k = N → s.cardWrapHidden = true ∧ s.emptyHidden = false ∧
    s.emptyText = .allRemembered ∧ s.countText = (0, N) ∧ s.knownText = N)

/-! ## Sample inputs -/

/-- A row with the given lesson label and front text. -/
def sampleRow (lesson : Cell) (front : String) : Row :=
  { Lesson := lesson, HanZi := .str front, Chinese := .str "", Hiragana := .str "" }

/-- Four rows, three of them of lesson 1. -/
def sampleData : List Row :=
  [sampleRow (.num 1) "hi", sampleRow (.num 1) "tsuki", sampleRow (.num 2) "ka",
    sampleRow (.num 1) "mizu"]

/-- The outcome `0` of `Math.random()`. -/
def randZero : Rnd := ⟨0, 1, by decide⟩

/-- The outcome `0.5` of `Math.random()`. -/
def randHalf : Rnd := ⟨1, 2, by decide⟩

/-- The fresh state with `sampleData` loaded and lesson `"1"` selected, before
`buildLessonDeck` runs. -/
def sampleLoaded : State :=
  { State.init with data := sampleData, currentLesson := .str "1" }

/-- A session on a deck of three cards, the middle one remembered, the cursor
on the last one. -/
def sampleSession : State :=
  { State.init with
    data := sampleData
    currentLesson := .str "1"
    filtered := some [sampleRow (.num 1) "hi", sampleRow (.num 1) "tsuki", sampleRow (.num 1) "mizu"]
    indices := [0, 1, 2]
    currentIdx := some 2
    known := {1} }

/-- The sample lesson after `buildLessonDeck` and one `rememberCard`. -/
def sampleAfterRemember : State :=
  match rememberCard randHalf (buildLessonDeck randZero sampleLoaded) with
  | .ok t => t
  | .error _ => State.init

/-- A row whose lesson cell is the number `1`. -/
def rowNumberOne : Row := sampleRow (.num 1) "hi"

/-- A row whose lesson cell is the text `"1"`. -/
def rowTextOne : Row := sampleRow (.str "1") "tsuki"

/-- A row whose lesson cell is the text `"01"`. -/
def rowTextZeroOne : Row := sampleRow (.str "01") "ka"

/-- A comparison of strings standing for `localeCompare`. -/
def sampleCompare (a b : String) : Bool := decide (a.data.map Char.toNat ≤ b.data.map Char.toNat)

/-! ## Lemmas on the helpers -/

theorem Rnd.floorMul_lt (u : Rnd) {n : Nat} (hn : 0 < n) : u.floorMul n < n := by
  unfold Rnd.floorMul
  have hd : 0 < u.den := Nat.lt_of_le_of_lt (Nat.zero_le _) u.lt_one
  rw [Nat.div_lt_iff_lt_mul hd]
  calc u.num * n < u.den * n := Nat.mul_lt_mul_of_pos_right u.lt_one hn
    _ = n * u.den := Nat.mul_comm _ _

theorem filterIdxFrom_range' (p : Nat → Bool) (k n : Nat) :
    filterIdxFrom (fun (_ : Nat) i => p i) k (List.range' k n) = (List.range' k n).filter p := by
  induction n generalizing k with
  | zero => simp [filterIdxFrom]
  | succ n ih =>
    rw [List.range'_succ]
    simp only [filterIdxFrom, List.filter_cons, ih]

theorem filterIdxFrom_eq_nil {α : Type} (p : Nat → Bool) (k : Nat) (xs : List α) :
    filterIdxFrom (fun (_ : α) i => p i) k xs = [] ↔
      ∀ i, k ≤ i → i < k + xs.length → p i = false := by
  induction xs generalizing k with
  | nil =>
    simp only [filterIdxFrom, List.length_nil, Nat.add_zero, true_iff]
    intro i h1 h2
    omega
  | cons x xs ih =>
    simp only [filterIdxFrom, List.length_cons]
    constructor
    · intro h i h1 h2
      by_cases hp : p k = true
      · simp [hp] at h
      · simp only [hp, Bool.false_eq_true, if_false] at h
        rcases Nat.eq_or_lt_of_le h1 with h3 | h3
        · subst h3
          simpa using hp
        · exact (ih (k + 1)).1 h i h3 (by omega)
    · intro h
      have hk : p k = false := h k (Nat.le_refl _) (by omega)
      simp only [hk, Bool.false_eq_true, if_false]
      exact (ih (k + 1)).2 (fun i h1 h2 => h i (by omega) (by omega))

theorem everyIdxFrom_eq_true {α : Type} (p : Nat → Bool) (k : Nat) (xs : List α) :
    everyIdxFrom (fun (_ : α) i => p i) k xs = true ↔
      ∀ i, k ≤ i → i < k + xs.length → p i = true := by
  induction xs generalizing k with
  | nil =>
    simp only [everyIdxFrom, List.length_nil, Nat.add_zero, true_iff]
    intro i h1 h2
    omega
  | cons x xs ih =>
    simp only [everyIdxFrom, List.length_cons, Bool.and_eq_true]
    constructor
    · rintro ⟨hk, h⟩ i h1 h2
      rcases Nat.eq_or_lt_of_le h1 with h3 | h3
      · subst h3
        exact hk
      · exact (ih (k + 1)).1 h i h3 (by omega)
    · intro h
      exact ⟨h k (Nat.le_refl _) (by omega),
        (ih (k + 1)).2 (fun i h1 h2 => h i (by omega) (by omega))⟩

/-! ## Lemmas on the pool and on `pickRandom` -/

theorem pool_eq_nil_iff (s : State) :
    s.pool = [] ↔ ∀ i, i < s.indices.length → i ∈ s.known := by
  unfold State.pool
  rw [filterIdxFrom_eq_nil (fun i => !decide (i ∈ s.known)) 0 s.indices]
  constructor
  · intro h i hi
    have := h i (Nat.zero_le _) (by omega)
    simpa using this
  · intro h i _ hi
    have := h i (by omega)
    simpa using this

theorem pool_of_range (s : State) (N : Nat) (h : s.indices = List.range N) :
    s.pool = (List.range N).filter (fun i => !decide (i ∈ s.known)) := by
  unfold State.pool
  rw [h, List.range_eq_range']
  exact filterIdxFrom_range' (fun i => !decide (i ∈ s.known)) 0 N

theorem mem_pool_of_range (s : State) (N : Nat) (h : s.indices = List.range N) (j : Nat) :
    j ∈ s.pool ↔ j < N ∧ j ∉ s.known := by
  rw [pool_of_range s N h]
  simp [List.mem_filter]

theorem pickRandom_of_pool_nil (u : Rnd) (s : State) (h : s.pool = []) :
    pickRandom u s = (false, s) := by
  simp [pickRandom, h]

theorem pickRandom_of_pool_ne_nil (u : Rnd) (s : State) (h : s.pool ≠ []) :
    ∃ j, s.pool[u.floorMul s.pool.length]? = some j ∧ j ∈ s.pool ∧
      pickRandom u s = (true, { s with currentIdx := some j }) := by
  have hlen : 0 < s.pool.length := List.length_pos.2 h
  have hlt : u.floorMul s.pool.length < s.pool.length := u.floorMul_lt hlen
  refine ⟨s.pool[u.floorMul s.pool.length], List.getElem?_eq_getElem hlt,
    List.getElem_mem hlt, ?_⟩
  have hne : s.pool.length ≠ 0 := Nat.pos_iff_ne_zero.1 hlen
  simp [pickRandom, hne, List.getElem?_eq_getElem hlt]

theorem pickRandom_fst (u : Rnd) (s : State) :
    (pickRandom u s).1 = false ↔ s.pool = [] := by
  by_cases h : s.pool = []
  · simp [pickRandom_of_pool_nil u s h, h]
  · obtain ⟨j, -, -, hj⟩ := pickRandom_of_pool_ne_nil u s h
    simp [hj, h]

theorem pickRandom_known (u : Rnd) (s : State) : (pickRandom u s).2.known = s.known := by
  by_cases h : s.pool = []
  · rw [pickRandom_of_pool_nil u s h]
  · obtain ⟨j, -, -, hj⟩ := pickRandom_of_pool_ne_nil u s h
    rw [hj]

theorem pickRandom_indices (u : Rnd) (s : State) :
    (pickRandom u s).2.indices = s.indices := by
  by_cases h : s.pool = []
  · rw [pickRandom_of_pool_nil u s h]
  · obtain ⟨j, -, -, hj⟩ := pickRandom_of_pool_ne_nil u s h
    rw [hj]

theorem pickRandom_filtered (u : Rnd) (s : State) :
    (pickRandom u s).2.filtered = s.filtered := by
  by_cases h : s.pool = []
  · rw [pickRandom_of_pool_nil u s h]
  · obtain ⟨j, -, -, hj⟩ := pickRandom_of_pool_ne_nil u s h
    rw [hj]

theorem pickRandom_data (u : Rnd) (s : State) : (pickRandom u s).2.data = s.data := by
  by_cases h : s.pool = []
  · rw [pickRandom_of_pool_nil u s h]
  · obtain ⟨j, -, -, hj⟩ := pickRandom_of_pool_ne_nil u s h
    rw [hj]

/-! ## What the page updates leave alone -/

@[simp] theorem updateMeta_indices (s : State) : (updateMeta s).indices = s.indices := rfl
@[simp] theorem updateMeta_known (s : State) : (updateMeta s).known = s.known := rfl
@[simp] theorem updateMeta_currentIdx (s : State) : (updateMeta s).currentIdx = s.currentIdx := rfl
@[simp] theorem updateMeta_filtered (s : State) : (updateMeta s).filtered = s.filtered := rfl

@[simp] theorem updateMeta_data (s : State) : (updateMeta s).data = s.data := rfl

@[simp] theorem showFront_data (s : State) : (showFront s).data = s.data := by
  unfold showFront
  dsimp only
  split <;> rfl

@[simp] theorem showFront_indices (s : State) : (showFront s).indices = s.indices := by
  unfold showFront
  dsimp only
  split <;> rfl

@[simp] theorem showFront_known (s : State) : (showFront s).known = s.known := by
  unfold showFront
  dsimp only
  split <;> rfl

@[simp] theorem showFront_currentIdx (s : State) : (showFront s).currentIdx = s.currentIdx := by
  unfold showFront
  dsimp only
  split <;> rfl

@[simp] theorem showFront_filtered (s : State) : (showFront s).filtered = s.filtered := by
  unfold showFront
  dsimp only
  split <;> rfl

theorem pool_eq_nil_of_indices (s : State) (h : s.indices.length = 0) : s.pool = [] :=
  (pool_eq_nil_iff s).2 (fun i hi => absurd hi (by omega))

theorem nextCard_known (u : Rnd) (s : State) : (nextCard u s).known = s.known := by
  unfold nextCard
  split
  · rfl
  · have h := pickRandom_known u s
    split <;> rename_i heq <;> rw [heq] at h <;> simpa using h

theorem nextCard_indices (u : Rnd) (s : State) : (nextCard u s).indices = s.indices := by
  unfold nextCard
  split
  · rfl
  · have h := pickRandom_indices u s
    split <;> rename_i heq <;> rw [heq] at h <;> simpa using h

theorem nextCard_filtered (u : Rnd) (s : State) : (nextCard u s).filtered = s.filtered := by
  unfold nextCard
  split
  · rfl
  · have h := pickRandom_filtered u s
    split <;> rename_i heq <;> rw [heq] at h <;> simpa using h

theorem nextCard_data (u : Rnd) (s : State) : (nextCard u s).data = s.data := by
  unfold nextCard
  split
  · rfl
  · have h := pickRandom_data u s
    split <;> rename_i heq <;> rw [heq] at h <;> simpa using h

theorem nextCard_currentIdx (u : Rnd) (s : State) :
    (nextCard u s).currentIdx = (pickRandom u s).2.currentIdx := by
  unfold nextCard
  split
  · rename_i h0
    rw [pickRandom_of_pool_nil u s (pool_eq_nil_of_indices s h0)]
  · split <;> rename_i heq <;> simp [heq]

theorem pickRandom_currentIdx (u : Rnd) (s : State) :
    (s.pool = [] ∧ (pickRandom u s).2.currentIdx = s.currentIdx) ∨
      (s.pool ≠ [] ∧ ∃ j, j ∈ s.pool ∧ (pickRandom u s).2.currentIdx = some j) := by
  by_cases h : s.pool = []
  · left
    rw [pickRandom_of_pool_nil u s h]
    exact ⟨h, rfl⟩
  · right
    obtain ⟨j, -, hmem, hj⟩ := pickRandom_of_pool_ne_nil u s h
    exact ⟨h, j, hmem, by rw [hj]⟩

/-! ## Lemmas on `rememberCard` -/

theorem rememberCard_none (u : Rnd) (s : State) (h : s.currentIdx = none) :
    rememberCard u s = .ok s := by
  unfold rememberCard
  rw [h]

/-- The state `rememberCard` reaches from a cursor on `i`: the Known Set gains
`i`; if that makes every position known the page shows the completion message
and the cursor stays, otherwise the cursor is the one `pickRandom` draws. -/
theorem rememberCard_some (u : Rnd) (s : State) (i : Nat) (h : s.currentIdx = some i) :
    ∃ t, rememberCard u s = .ok t ∧ t.indices = s.indices ∧ t.filtered = s.filtered ∧
      t.known = insert i s.known ∧
      t.countText = ((s.indices.length : Int) - ((insert i s.known).card : Int), s.indices.length) ∧
      t.knownText = (insert i s.known).card ∧
      ((∀ j, j < s.indices.length → j ∈ insert i s.known) →
        t.currentIdx = some i ∧ t.cardWrapHidden = true ∧ t.emptyHidden = false ∧
          t.emptyText = .allRemembered) ∧
      (¬ (∀ j, j < s.indices.length → j ∈ insert i s.known) →
        t.currentIdx = (pickRandom u { s with known := insert i s.known }).2.currentIdx) := by
  have hall : everyIdxFrom (fun (_ : Nat) j => decide (j ∈ insert i s.known)) 0 s.indices = true ↔
      ∀ j, j < s.indices.length → j ∈ insert i s.known := by
    rw [everyIdxFrom_eq_true (fun j => decide (j ∈ insert i s.known)) 0 s.indices]
    constructor
    · intro hh j hj
      have := hh j (Nat.zero_le _) (by omega)
      simpa using this
    · intro hh j _ hj
      have := hh j (by omega)
      simpa using this
  unfold rememberCard
  split
  · rename_i hnone
    rw [h] at hnone
    cases hnone
  rename_i idx hsome
  rw [h] at hsome
  cases hsome
  dsimp only
  by_cases hk : everyIdxFrom (fun (_ : Nat) j => decide (j ∈ insert i s.known)) 0 s.indices = true
  · rw [if_pos hk]
    refine ⟨_, rfl, rfl, rfl, rfl, rfl, rfl, ?_, ?_⟩
    · intro _
      exact ⟨h, rfl, rfl, rfl⟩
    · intro hn
      exact absurd (hall.1 hk) hn
  · rw [if_neg hk]
    refine ⟨_, rfl, ?_, ?_, ?_, ?_, ?_, ?_, ?_⟩
    · rw [updateMeta_indices, nextCard_indices]
    · rw [updateMeta_filtered, nextCard_filtered]
    · rw [updateMeta_known, nextCard_known]
    · simp only [updateMeta, nextCard_indices, nextCard_known]
    · simp only [updateMeta, nextCard_known]
    · intro ha
      exact absurd (hall.2 ha) hk
    · intro _
      rw [updateMeta_currentIdx, nextCard_currentIdx]

theorem rememberCard_ok (u : Rnd) (s : State) : ∃ t, rememberCard u s = .ok t := by
  cases h : s.currentIdx with
  | none => exact ⟨s, rememberCard_none u s h⟩
  | some i =>
    obtain ⟨t, ht, -⟩ := rememberCard_some u s i h
    exact ⟨t, ht⟩

/-! ## Lemmas on `buildLessonDeck` -/

theorem nextCard_fresh (u : Rnd) (s : State) (n : Nat) (hi : s.indices = List.range n)
    (hk : s.known = ∅) (hn : n ≠ 0) : ∃ i, (nextCard u s).currentIdx = some i ∧ i < n := by
  rw [nextCard_currentIdx]
  rcases pickRandom_currentIdx u s with ⟨hnil, -⟩ | ⟨-, j, hj, hcur⟩
  · rw [pool_eq_nil_iff] at hnil
    have h0 := hnil 0 (by rw [hi, List.length_range]; omega)
    rw [hk] at h0
    simp at h0
  · rw [mem_pool_of_range s n hi] at hj
    exact ⟨j, hcur, hj.1⟩

/-- The rows `buildLessonDeck` keeps: those whose `String(Lesson)` is the
`String` of the selected lesson. -/
theorem buildLessonDeck_spec (u : Rnd) (s : State) :
    (buildLessonDeck u s).filtered =
        some (s.data.filter (fun r => r.Lesson.toStr == s.currentLesson.toStr)) ∧
      (buildLessonDeck u s).indices =
        List.range (s.data.filter (fun r => r.Lesson.toStr == s.currentLesson.toStr)).length ∧
      (buildLessonDeck u s).known = ∅ ∧
      (buildLessonDeck u s).data = s.data ∧
      ((s.data.filter (fun r => r.Lesson.toStr == s.currentLesson.toStr)).length = 0 →
        (buildLessonDeck u s).currentIdx = none ∧ (buildLessonDeck u s).emptyText = .noData ∧
          (buildLessonDeck u s).cardWrapHidden = true ∧
          (buildLessonDeck u s).emptyHidden = false) ∧
      (0 < (s.data.filter (fun r => r.Lesson.toStr == s.currentLesson.toStr)).length →
        ∃ i, (buildLessonDeck u s).currentIdx = some i ∧
          i < (s.data.filter (fun r => r.Lesson.toStr == s.currentLesson.toStr)).length) := by
  generalize hrows : s.data.filter (fun r => r.Lesson.toStr == s.currentLesson.toStr) = rows
  unfold buildLessonDeck
  dsimp only
  rw [hrows]
  by_cases hn : rows.length = 0
  · have h0 : ¬ (List.range rows.length).length ≠ 0 := by simp [hn]
    rw [if_neg h0]
    refine ⟨rfl, rfl, rfl, rfl, fun _ => ⟨rfl, rfl, rfl, rfl⟩, fun hp => absurd hn (by omega)⟩
  · have h0 : (List.range rows.length).length ≠ 0 := by simpa using hn
    rw [if_pos h0]
    refine ⟨?_, ?_, ?_, ?_, fun hz => absurd hz hn, fun _ => ?_⟩
    · rw [updateMeta_filtered, nextCard_filtered]
    · rw [updateMeta_indices, nextCard_indices]
    · rw [updateMeta_known, nextCard_known]
    · rw [updateMeta_data, nextCard_data]
    · rw [updateMeta_currentIdx]
      exact nextCard_fresh u _ rows.length rfl rfl hn

/-! ## Sequences of operations: totality, the Known Set, the invariant -/

theorem pickRandom_cursor_lt (u : Rnd) (s : State) (N : Nat) (hidx : s.indices = List.range N)
    (hcur : ∀ i, s.currentIdx = some i → i < N) :
    ∀ i, (pickRandom u s).2.currentIdx = some i → i < N := by
  intro i hi
  rcases pickRandom_currentIdx u s with ⟨-, hsame⟩ | ⟨-, j, hj, hcur2⟩
  · rw [hsame] at hi
    exact hcur i hi
  · rw [hcur2] at hi
    cases hi
    exact ((mem_pool_of_range s N hidx _).1 hj).1

theorem SessionOp.apply_ok (op : SessionOp) (s : State) : ∃ t, op.apply s = .ok t := by
  cases op with
  | pick u => exact ⟨_, rfl⟩
  | next u => exact ⟨_, rfl⟩
  | remember u => exact rememberCard_ok u s

theorem SessionOp.apply_known (op : SessionOp) (s t : State) (h : op.apply s = .ok t) :
    t.indices = s.indices ∧ s.known ⊆ t.known := by
  cases op with
  | pick u =>
    cases h
    exact ⟨pickRandom_indices u s, by rw [pickRandom_known]⟩
  | next u =>
    cases h
    exact ⟨nextCard_indices u s, by rw [nextCard_known]⟩
  | remember u =>
    change rememberCard u s = .ok t at h
    cases hc : s.currentIdx with
    | none =>
      rw [rememberCard_none u s hc] at h
      cases h
      exact ⟨rfl, Finset.Subset.refl _⟩
    | some i =>
      obtain ⟨t2, ht2, hidx, -, hkn, -⟩ := rememberCard_some u s i hc
      rw [ht2] at h
      cases h
      exact ⟨hidx, by rw [hkn]; exact Finset.subset_insert i s.known⟩

theorem applyAll_known (ops : List SessionOp) (s : State) :
    ∃ t, applyAll ops s = .ok t ∧ t.indices = s.indices ∧ s.known ⊆ t.known := by
  induction ops generalizing s with
  | nil => exact ⟨s, rfl, rfl, Finset.Subset.refl _⟩
  | cons op ops ih =>
    obtain ⟨t1, h1⟩ := op.apply_ok s
    obtain ⟨hi1, hk1⟩ := op.apply_known s t1 h1
    obtain ⟨t, ht, hi, hk⟩ := ih t1
    refine ⟨t, ?_, hi.trans hi1, hk1.trans hk⟩
    simp only [applyAll, h1]
    exact ht

theorem wellFormed_apply (op : SessionOp) (s t : State) (hwf : WellFormed s)
    (h : op.apply s = .ok t) : WellFormed t := by
  obtain ⟨⟨rows, hf, hidx⟩, hkn, hcur⟩ := hwf
  have hlen : s.indices.length = rows.length := by rw [hidx, List.length_range]
  rw [hlen] at hkn hcur
  cases op with
  | pick u =>
    cases h
    refine ⟨⟨rows, ?_, ?_⟩, ?_, ?_⟩
    · rw [pickRandom_filtered, hf]
    · rw [pickRandom_indices, hidx]
    · rw [pickRandom_known, pickRandom_indices, hlen]
      exact hkn
    · rw [pickRandom_indices, hlen]
      exact pickRandom_cursor_lt u s rows.length hidx hcur
  | next u =>
    cases h
    refine ⟨⟨rows, ?_, ?_⟩, ?_, ?_⟩
    · rw [nextCard_filtered, hf]
    · rw [nextCard_indices, hidx]
    · rw [nextCard_known, nextCard_indices, hlen]
      exact hkn
    · rw [nextCard_indices, hlen, nextCard_currentIdx]
      exact pickRandom_cursor_lt u s rows.length hidx hcur
  | remember u =>
    change rememberCard u s = .ok t at h
    cases hc : s.currentIdx with
    | none =>
      rw [rememberCard_none u s hc] at h
      cases h
      refine ⟨⟨rows, hf, hidx⟩, ?_, ?_⟩
      · rw [hlen]
        exact hkn
      · rw [hlen]
        exact hcur
    | some i =>
      obtain ⟨t2, ht2, hidx2, hf2, hkn2, -, -, hall, hnot⟩ := rememberCard_some u s i hc
      rw [ht2] at h
      cases h
      have hi : i < rows.length := hcur i hc
      refine ⟨⟨rows, by rw [hf2, hf], by rw [hidx2, hidx]⟩, ?_, ?_⟩
      · rw [hidx2, hlen, hkn2]
        intro j hj
        rcases Finset.mem_insert.1 hj with rfl | hj
        · exact hi
        · exact hkn j hj
      · rw [hidx2, hlen]
        by_cases ha : ∀ j, j < s.indices.length → j ∈ insert i s.known
        · intro j hj
          rw [(hall ha).1] at hj
          cases hj
          exact hi
        · rw [hnot ha]
          exact pickRandom_cursor_lt u _ rows.length hidx hcur

theorem wellFormed_build (u : Rnd) (s : State) : WellFormed (buildLessonDeck u s) := by
  obtain ⟨hf, hidx, hkn, -, h0, hpos⟩ := buildLessonDeck_spec u s
  refine ⟨⟨_, hf, hidx⟩, ?_, ?_⟩
  · intro i hi
    rw [hkn] at hi
    simp at hi
  · intro i hi
    rw [hidx, List.length_range]
    rcases Nat.eq_zero_or_pos
      (s.data.filter (fun r => r.Lesson.toStr == s.currentLesson.toStr)).length with hz | hp
    · rw [(h0 hz).1] at hi
      cases hi
    · obtain ⟨j, hj, hlt⟩ := hpos hp
      rw [hj] at hi
      cases hi
      exact hlt

theorem wellFormed_of_reachable (s : State) (h : Reachable s) : WellFormed s := by
  induction h with
  | build u s => exact wellFormed_build u s
  | step op s t _ hstep ih => exact wellFormed_apply op s t ih hstep

/-! ## Remembering every card of a fresh deck -/

theorem all_known_iff_card (N : Nat) (K : Finset Nat) (hsub : ∀ i ∈ K, i < N) :
    (∀ j, j < N → j ∈ K) ↔ K.card = N := by
  have hsub2 : K ⊆ Finset.range N := fun i hi => Finset.mem_range.2 (hsub i hi)
  constructor
  · intro h
    have : K = Finset.range N :=
      Finset.Subset.antisymm hsub2 (fun j hj => h j (Finset.mem_range.1 hj))
    rw [this, Finset.card_range]
  · intro h j hj
    have : K = Finset.range N :=
      Finset.eq_of_subset_of_card_le hsub2 (by rw [Finset.card_range, h])
    rw [this]
    exact Finset.mem_range.2 hj

theorem deckInv_build (u : Rnd) (s : State) :
    DeckInv (s.data.filter (fun r => r.Lesson.toStr == s.currentLesson.toStr)).length 0
      (buildLessonDeck u s) := by
  obtain ⟨-, hidx, hkn, -, -, hpos⟩ := buildLessonDeck_spec u s
  refine ⟨hidx, ?_, ?_, ?_, ?_⟩
  · intro i hi
    rw [hkn] at hi
    simp at hi
  · rw [hkn]
    rfl
  · intro hp
    obtain ⟨i, hi, hlt⟩ := hpos hp
    exact ⟨i, hi, hlt, by rw [hkn]; simp⟩
  · intro hp h0
    omega

theorem deckInv_remember (u : Rnd) (N k : Nat) (s : State) (hinv : DeckInv N k s)
    (hk : k < N) : ∃ t, rememberCard u s = .ok t ∧ DeckInv N (k + 1) t := by
  obtain ⟨hidx, hsub, hcard, hcur, -⟩ := hinv
  obtain ⟨i, hi, hiN, hik⟩ := hcur hk
  have hlen : s.indices.length = N := by rw [hidx, List.length_range]
  obtain ⟨t, ht, hidx2, -, hkn2, hcount, hktext, hall, hnot⟩ := rememberCard_some u s i hi
  rw [hlen] at hall hnot hcount
  have hsub2 : ∀ j ∈ insert i s.known, j < N := by
    intro j hj
    rcases Finset.mem_insert.1 hj with rfl | hj
    · exact hiN
    · exact hsub j hj
  have hcard2 : (insert i s.known).card = k + 1 := by
    rw [Finset.card_insert_of_not_mem hik, hcard]
  have hiff := all_known_iff_card N (insert i s.known) hsub2
  rw [hcard2] at hiff hcount hktext
  refine ⟨t, ht, by rw [hidx2, hidx], by rw [hkn2]; exact hsub2, by rw [hkn2, hcard2], ?_, ?_⟩
  · intro hlt
    have hna : ¬ ∀ j, j < N → j ∈ insert i s.known := fun ha => by
      have := hiff.1 ha
      omega
    rw [hnot hna]
    rcases pickRandom_currentIdx u { s with known := insert i s.known } with
      ⟨hnil, -⟩ | ⟨-, j, hj, hcur2⟩
    · rw [pool_eq_nil_iff] at hnil
      exact absurd (fun j hj => hnil j (by simpa [hlen] using hj)) hna
    · have hj2 := (mem_pool_of_range { s with known := insert i s.known } N hidx j).1 hj
      exact ⟨j, hcur2, hj2.1, by rw [hkn2]; exact hj2.2⟩
  · intro _ heq
    obtain ⟨-, h1, h2, h3⟩ := hall (hiff.2 heq)
    refine ⟨h1, h2, h3, ?_, by rw [hktext, heq]⟩
    rw [hcount, heq]
    simp

theorem deckInv_rememberAll (N : Nat) (us : List Rnd) :
    ∀ (k : Nat) (s : State), DeckInv N k s → k + us.length ≤ N →
      ∃ t, rememberAll us s = .ok t ∧ DeckInv N (k + us.length) t := by
  induction us with
  | nil =>
    intro k s hinv _
    exact ⟨s, rfl, hinv⟩
  | cons u us ih =>
    intro k s hinv hle
    rw [List.length_cons] at hle
    obtain ⟨t1, ht1, hinv1⟩ := deckInv_remember u N k s hinv (by omega)
    obtain ⟨t, ht, hinvt⟩ := ih (k + 1) t1 hinv1 (by omega)
    refine ⟨t, ?_, ?_⟩
    · simp only [rememberAll, List.map_cons, applyAll, SessionOp.apply, ht1]
      exact ht
    · rw [List.length_cons]
      have : k + (us.length + 1) = k + 1 + us.length := by omega
      rw [this]
      exact hinvt

theorem complete_of_deckInv (N : Nat) (s : State) (hN : 0 < N) (hinv : DeckInv N N s) :
    Complete s ∧ s.total = N ∧ s.knownCount = N := by
  obtain ⟨hidx, hsub, hcard, -, -⟩ := hinv
  have hlen : s.indices.length = N := by rw [hidx, List.length_range]
  refine ⟨⟨by omega, ?_, ?_, ?_⟩, hlen, hcard⟩
  · rw [hlen]
    exact (all_known_iff_card N s.known hsub).2 hcard
  · simp only [State.knownCount, State.total, hcard, hlen]
  · simp only [State.remaining, State.total, hcard, hlen]
    omega

theorem active_of_deckInv (N k : Nat) (s : State) (hk : k < N) (hinv : DeckInv N k s) :
    Active s := by
  obtain ⟨hidx, -, -, hcur, -⟩ := hinv
  have hlen : s.indices.length = N := by rw [hidx, List.length_range]
  obtain ⟨i, hi, hlt, hni⟩ := hcur hk
  exact ⟨by omega, i, hi, by omega, hni⟩

/-! ## The pool as the sorted list of the positions not yet known -/

theorem pool_eq_sort (s : State) (N : Nat) (hidx : s.indices = List.range N) :
    s.pool = (Finset.range N \ s.known).sort (· ≤ ·) := by
  have hnodup : s.pool.Nodup := by
    rw [pool_of_range s N hidx]
    exact (List.nodup_range N).filter _
  have hsorted : s.pool.Sorted (· ≤ ·) := by
    rw [pool_of_range s N hidx]
    exact (List.sorted_le_range N).filter _
  have hfin : s.pool.toFinset = Finset.range N \ s.known := by
    ext j
    rw [List.mem_toFinset, mem_pool_of_range s N hidx, Finset.mem_sdiff, Finset.mem_range]
  rw [← hfin]
  exact ((List.toFinset_sort (· ≤ ·) hnodup).2 hsorted).symm

/-! ## The claims -/

/-- C1: from the state `buildLessonDeck` produces on a lesson with `N > 0`
matching rows, `N` calls of `rememberCard` in a row, whatever the random
outcomes, all return and end in the COMPLETE state: every position `0..N-1` is
in `state.known`, `knownCount = N = total`, `remaining = 0`, and the page shows
the completion message; after each of the first `k < N` calls the session is
ACTIVE, the cursor on a position not yet known, with `k` cards known. -/
theorem C1_remember_every_card (u0 : Rnd) (s0 : State) (us : List Rnd) (N : Nat)
    (hrows : s0.data.countP (fun r => r.Lesson.toStr == s0.currentLesson.toStr) = N)
    (hN : 0 < N) (hlen : us.length = N) :
    (∃ t, rememberAll us (buildLessonDeck u0 s0) = .ok t ∧ Complete t ∧
        (∀ i, i < N → i ∈ t.known) ∧ t.knownCount = N ∧ t.total = N ∧ t.remaining = 0 ∧
        t.cardWrapHidden = true ∧ t.emptyText = .allRemembered ∧ t.countText = (0, N)) ∧
      (∀ k, k < N → ∃ t, rememberAll (us.take k) (buildLessonDeck u0 s0) = .ok t ∧
        Active t ∧ t.knownCount = k) := by
  have hinv0 := deckInv_build u0 s0
  rw [← List.countP_eq_length_filter, hrows] at hinv0
  constructor
  · obtain ⟨t, ht, hinv⟩ := deckInv_rememberAll N us 0 _ hinv0 (by omega)
    rw [hlen, Nat.zero_add] at hinv
    obtain ⟨hc, htot, hkc⟩ := complete_of_deckInv N t hN hinv
    obtain ⟨-, -, -, -, hpage⟩ := hinv
    obtain ⟨h1, -, h3, h4, -⟩ := hpage hN rfl
    refine ⟨t, ht, hc, ?_, hkc, htot, hc.2.2.2, h1, h3, h4⟩
    intro i hi
    exact hc.2.1 i (by rw [← htot] at hi; exact hi)
  · intro k hk
    have hklen : (us.take k).length = k := by
      rw [List.length_take, hlen]
      omega
    obtain ⟨t, ht, hinv⟩ := deckInv_rememberAll N (us.take k) 0 _ hinv0 (by omega)
    rw [hklen, Nat.zero_add] at hinv
    exact ⟨t, ht, active_of_deckInv N k t hk hinv, hinv.2.2.1⟩

/-- C1 at the sample lesson of three cards, with three random outcomes. -/
theorem C1_remember_every_card_witness :
    (∃ t, rememberAll [randHalf, randZero, randHalf] (buildLessonDeck randZero sampleLoaded)
          = .ok t ∧ Complete t ∧
        (∀ i, i < 3 → i ∈ t.known) ∧ t.knownCount = 3 ∧ t.total = 3 ∧ t.remaining = 0 ∧
        t.cardWrapHidden = true ∧ t.emptyText = .allRemembered ∧ t.countText = (0, 3)) ∧
      (∀ k, k < 3 → ∃ t, rememberAll ([randHalf, randZero, randHalf].take k)
          (buildLessonDeck randZero sampleLoaded) = .ok t ∧ Active t ∧ t.knownCount = k) :=
  C1_remember_every_card randZero sampleLoaded [randHalf, randZero, randHalf] 3
    (by decide) (by decide) (by decide)

/-- C2: on a state whose `indices` is `[0, ..., N-1]`, whatever `state.known`
and the random outcome, if `pickRandom` returns true the new `currentIdx` is a
position `i` with `0 <= i < N` that is not in `state.known`. -/
theorem C2_draw_never_known (u : Rnd) (s : State) (N : Nat)
    (hidx : s.indices = List.range N) (htrue : (pickRandom u s).1 = true) :
    ∃ i, (pickRandom u s).2.currentIdx = some i ∧ 0 ≤ i ∧ i < N ∧ i ∉ s.known := by
  rcases pickRandom_currentIdx u s with ⟨hnil, -⟩ | ⟨-, j, hj, hcur⟩
  · rw [(pickRandom_fst u s).2 hnil] at htrue
    cases htrue
  · have hj2 := (mem_pool_of_range s N hidx j).1 hj
    exact ⟨j, hcur, Nat.zero_le _, hj2.1, hj2.2⟩

/-- C2 at the sample session: position 1 is known, a draw lands elsewhere. -/
theorem C2_draw_never_known_witness :
    ∃ i, (pickRandom randHalf sampleSession).2.currentIdx = some i ∧ 0 ≤ i ∧ i < 3 ∧
      i ∉ sampleSession.known :=
  C2_draw_never_known randHalf sampleSession 3 (by decide) (by decide)

/-- C3, as the code has it: `rememberCard` called with `state.currentIdx` null
returns normally and leaves the state as it was (the guard of line 101). -/
theorem C3_remember_without_cursor_returns (u : Rnd) (s : State) (h : s.currentIdx = none) :
    rememberCard u s = .ok s := by
  unfold rememberCard
  rw [h]

/-- C3 at the fresh state, whose cursor is null. -/
theorem C3_remember_without_cursor_returns_witness :
    State.init.currentIdx = none ∧ rememberCard randZero State.init = .ok State.init :=
  ⟨rfl, C3_remember_without_cursor_returns randZero State.init rfl⟩

/-- C3 as stated fails: on the fresh state the cursor is null and the call
raises nothing, it returns with the state unchanged. -/
theorem C3_no_error_without_cursor :
    State.init.currentIdx = none ∧
      (¬ ∃ e, rememberCard randZero State.init = .error e) ∧
      rememberCard randZero State.init = .ok State.init := by
  refine ⟨rfl, ?_, rfl⟩
  rintro ⟨e, he⟩
  have h : rememberCard randZero State.init = .ok State.init := rfl
  rw [h] at he
  cases he

/-- C4: in every state reachable from a `buildLessonDeck` call by
`buildLessonDeck`, `pickRandom`, `nextCard` and `rememberCard` steps, with any
random outcomes, `state.indices` is `[0..N-1]` for `N` the length of
`state.filtered`, every element of `state.known` is below `N`, and
`state.currentIdx` is null or below `N`. -/
theorem C4_reachable_well_formed (s : State) (h : Reachable s) :
    ∃ rows, s.filtered = some rows ∧ s.indices = List.range rows.length ∧
      (∀ i ∈ s.known, i < rows.length) ∧
      (s.currentIdx = none ∨ ∃ i, s.currentIdx = some i ∧ i < rows.length) := by
  obtain ⟨⟨rows, hf, hidx⟩, hkn, hcur⟩ := wellFormed_of_reachable s h
  have hlen : s.indices.length = rows.length := by rw [hidx, List.length_range]
  rw [hlen] at hkn hcur
  refine ⟨rows, hf, hidx, hkn, ?_⟩
  cases hc : s.currentIdx with
  | none => exact Or.inl rfl
  | some i => exact Or.inr ⟨i, rfl, hcur i hc⟩

/-- C4 at the sample lesson, after `buildLessonDeck`, a `rememberCard` and a
`nextCard`. -/
theorem C4_reachable_well_formed_witness :
    ∃ rows, (nextCard randZero sampleAfterRemember).filtered = some rows ∧
      (nextCard randZero sampleAfterRemember).indices = List.range rows.length ∧
      (∀ i ∈ (nextCard randZero sampleAfterRemember).known, i < rows.length) ∧
      ((nextCard randZero sampleAfterRemember).currentIdx = none ∨
        ∃ i, (nextCard randZero sampleAfterRemember).currentIdx = some i ∧ i < rows.length) :=
  C4_reachable_well_formed (nextCard randZero sampleAfterRemember)
    (Reachable.step (.next randZero) sampleAfterRemember _
      (Reachable.step (.remember randHalf) (buildLessonDeck randZero sampleLoaded) _
        (Reachable.build randZero sampleLoaded) rfl)
      rfl)

/-- C5: `pickRandom` returns false exactly when no position of the Index Pool
is outside `state.known`, the empty deck included; when it returns false the
state is unchanged; and from a state where every position is known, after any
sequence of `pickRandom`, `nextCard` and `rememberCard` (no `buildLessonDeck`),
a draw still returns false and changes nothing. -/
theorem C5_exhausted_iff_all_known :
    (∀ (u : Rnd) (s : State),
        (pickRandom u s).1 = false ↔ ∀ i, i < s.indices.length → i ∈ s.known) ∧
      (∀ (u : Rnd) (s : State), s.indices.length = 0 → (pickRandom u s).1 = false) ∧
      (∀ (u : Rnd) (s : State), (pickRandom u s).1 = false → (pickRandom u s).2 = s) ∧
      (∀ (s : State), (∀ i, i < s.indices.length → i ∈ s.known) →
        ∀ (ops : List SessionOp) (u : Rnd),
          ∃ t, applyAll ops s = .ok t ∧ pickRandom u t = (false, t)) := by
  refine ⟨?_, ?_, ?_, ?_⟩
  · intro u s
    rw [pickRandom_fst, pool_eq_nil_iff]
  · intro u s h0
    rw [pickRandom_fst]
    exact pool_eq_nil_of_indices s h0
  · intro u s hf
    rw [pickRandom_of_pool_nil u s ((pickRandom_fst u s).1 hf)]
  · intro s hall ops u
    obtain ⟨t, ht, hidx, hkn⟩ := applyAll_known ops s
    refine ⟨t, ht, pickRandom_of_pool_nil u t ?_⟩
    rw [pool_eq_nil_iff, hidx]
    exact fun i hi => hkn (hall i hi)

/-- C6: after `buildLessonDeck`, from any prior state, `total` is the number
`N` of rows of `state.data` whose `String(Lesson)` equals the `String` of the
selected lesson, `state.indices` is `[0..N-1]`, `state.filtered` is those rows
in their original order, `state.known` is empty (`knownCount = 0`,
`remaining = N`), and `state.currentIdx` is null when `N = 0` and a position
below `N` when `N > 0`. -/
theorem C6_build_postcondition (u : Rnd) (s : State) :
    (buildLessonDeck u s).total =
        s.data.countP (fun r => r.Lesson.toStr == s.currentLesson.toStr) ∧
      (buildLessonDeck u s).indices =
        List.range (s.data.countP (fun r => r.Lesson.toStr == s.currentLesson.toStr)) ∧
      (∃ rows, (buildLessonDeck u s).filtered = some rows ∧
        rows = s.data.filter (fun r => decide (r.Lesson.toStr = s.currentLesson.toStr)) ∧
        rows.Sublist s.data ∧
        rows.length = s.data.countP (fun r => r.Lesson.toStr == s.currentLesson.toStr) ∧
        ∀ r, r ∈ rows ↔ r ∈ s.data ∧ r.Lesson.toStr = s.currentLesson.toStr) ∧
      (buildLessonDeck u s).known = ∅ ∧ (buildLessonDeck u s).knownCount = 0 ∧
      (buildLessonDeck u s).remaining =
        s.data.countP (fun r => r.Lesson.toStr == s.currentLesson.toStr) ∧
      (s.data.countP (fun r => r.Lesson.toStr == s.currentLesson.toStr) = 0 →
        (buildLessonDeck u s).currentIdx = none) ∧
      (0 < s.data.countP (fun r => r.Lesson.toStr == s.currentLesson.toStr) →
        ∃ i, (buildLessonDeck u s).currentIdx = some i ∧
          i < s.data.countP (fun r => r.Lesson.toStr == s.currentLesson.toStr)) := by
  obtain ⟨hf, hidx, hkn, -, h0, hpos⟩ := buildLessonDeck_spec u s
  rw [← List.countP_eq_length_filter] at hidx h0 hpos
  refine ⟨?_, hidx, ⟨_, hf, ?_, List.filter_sublist _, ?_, ?_⟩, hkn, ?_, ?_,
    fun hz => (h0 hz).1, hpos⟩
  · rw [State.total, hidx, List.length_range]
  · congr 1
  · rw [List.countP_eq_length_filter]
  · intro r
    simp [List.mem_filter]
  · rw [State.knownCount, hkn]
    rfl
  · rw [State.remaining, State.total, hkn, hidx, List.length_range]
    simp

/-- C7: on a state whose `indices` is `[0..N-1]` with at least one position not
yet known, let `unknown` be the positions of the Index Pool outside
`state.known` in ascending order. `pickRandom` returns true and sets
`state.currentIdx` to `unknown[r]` for `r = Math.floor(Math.random() * unknown.length)`,
which is below `unknown.length`; every `r` below `unknown.length` is the value of
some random outcome; and `r -> unknown[r]` is a bijection from
`{0, ..., unknown.length - 1}` onto the positions not yet known. -/
theorem C7_pick_is_bijection (s : State) (N : Nat) (hidx : s.indices = List.range N)
    (hne : ∃ i, i < N ∧ i ∉ s.known) :
    ((Finset.range N \ s.known).sort (· ≤ ·)).length = (Finset.range N \ s.known).card ∧
      (∀ (u : Rnd) (r : Nat),
        u.floorMul ((Finset.range N \ s.known).sort (· ≤ ·)).length = r →
          r < ((Finset.range N \ s.known).sort (· ≤ ·)).length ∧
          ∃ i, ((Finset.range N \ s.known).sort (· ≤ ·))[r]? = some i ∧
            pickRandom u s = (true, { s with currentIdx := some i })) ∧
      (∀ r, r < ((Finset.range N \ s.known).sort (· ≤ ·)).length →
        ∃ u : Rnd, u.floorMul ((Finset.range N \ s.known).sort (· ≤ ·)).length = r) ∧
      Set.BijOn (fun r => ((Finset.range N \ s.known).sort (· ≤ ·)).getD r 0)
        {r | r < ((Finset.range N \ s.known).sort (· ≤ ·)).length}
        {i | i < N ∧ i ∉ s.known} := by
  have hpool := pool_eq_sort s N hidx
  generalize hU : (Finset.range N \ s.known).sort (· ≤ ·) = unknown at hpool ⊢
  have hmem : ∀ j, j ∈ unknown ↔ j < N ∧ j ∉ s.known := by
    intro j
    rw [← hpool]
    exact mem_pool_of_range s N hidx j
  have hnodup : unknown.Nodup := by
    rw [← hU]
    exact Finset.sort_nodup _ _
  have hnil : s.pool ≠ [] := by
    obtain ⟨i, hi⟩ := hne
    intro h
    have : i ∈ unknown := (hmem i).2 hi
    rw [← hpool, h] at this
    cases this
  refine ⟨?_, ?_, ?_, ?_, ?_, ?_⟩
  · rw [← hU]
    exact Finset.length_sort _
  · intro u r hr
    obtain ⟨j, hj, -, hpick⟩ := pickRandom_of_pool_ne_nil u s hnil
    rw [hpool, hr] at hj
    have hlt : r < unknown.length := by
      rw [← hr]
      exact u.floorMul_lt (List.length_pos.2 (by rw [← hpool]; exact hnil))
    exact ⟨hlt, j, hj, hpick⟩
  · intro r hr
    refine ⟨⟨r, unknown.length, hr⟩, ?_⟩
    exact Nat.mul_div_cancel r (Nat.lt_of_le_of_lt (Nat.zero_le _) hr)
  · intro r hr
    have hr2 : r < unknown.length := hr
    change unknown.getD r 0 < N ∧ unknown.getD r 0 ∉ s.known
    rw [List.getD_eq_getElem unknown 0 hr2]
    exact (hmem _).1 (List.getElem_mem hr2)
  · intro a ha b hb hab
    have ha2 : a < unknown.length := ha
    have hb2 : b < unknown.length := hb
    change unknown.getD a 0 = unknown.getD b 0 at hab
    rw [List.getD_eq_getElem unknown 0 ha2, List.getD_eq_getElem unknown 0 hb2] at hab
    exact (hnodup.getElem_inj_iff).1 hab
  · intro i hi
    obtain ⟨r, hr, hri⟩ := List.getElem_of_mem ((hmem i).2 hi)
    refine ⟨r, hr, ?_⟩
    change unknown.getD r 0 = i
    rw [List.getD_eq_getElem unknown 0 hr]
    exact hri

/-- C7 at the sample session: positions 0 and 2 are not yet known. -/
theorem C7_pick_is_bijection_witness :
    ((Finset.range 3 \ sampleSession.known).sort (· ≤ ·)).length =
        (Finset.range 3 \ sampleSession.known).card ∧
      (∀ (u : Rnd) (r : Nat),
        u.floorMul ((Finset.range 3 \ sampleSession.known).sort (· ≤ ·)).length = r →
          r < ((Finset.range 3 \ sampleSession.known).sort (· ≤ ·)).length ∧
          ∃ i, ((Finset.range 3 \ sampleSession.known).sort (· ≤ ·))[r]? = some i ∧
            pickRandom u sampleSession = (true, { sampleSession with currentIdx := some i })) ∧
      (∀ r, r < ((Finset.range 3 \ sampleSession.known).sort (· ≤ ·)).length →
        ∃ u : Rnd, u.floorMul ((Finset.range 3 \ sampleSession.known).sort (· ≤ ·)).length = r) ∧
      Set.BijOn (fun r => ((Finset.range 3 \ sampleSession.known).sort (· ≤ ·)).getD r 0)
        {r | r < ((Finset.range 3 \ sampleSession.known).sort (· ≤ ·)).length}
        {i | i < 3 ∧ i ∉ sampleSession.known} :=
  C7_pick_is_bijection sampleSession 3 (by decide) ⟨0, by decide, by decide⟩

/-- C8: `pickRandom` and `nextCard` leave `state.known` as it was;
`rememberCard` with the cursor on `i` returns with `known` equal to
`known ∪ {i}`; and over any sequence of `pickRandom`, `nextCard` and
`rememberCard` the Known Set keeps every element and its size does not
decrease. -/
theorem C8_known_only_grows :
    (∀ (u : Rnd) (s : State), (pickRandom u s).2.known = s.known) ∧
      (∀ (u : Rnd) (s : State), (nextCard u s).known = s.known) ∧
      (∀ (u : Rnd) (s : State) (i : Nat), s.currentIdx = some i →
        ∃ t, rememberCard u s = .ok t ∧ t.known = s.known ∪ {i}) ∧
      (∀ (ops : List SessionOp) (s : State),
        ∃ t, applyAll ops s = .ok t ∧ s.known ⊆ t.known ∧ s.known.card ≤ t.known.card) := by
  refine ⟨pickRandom_known, nextCard_known, ?_, ?_⟩
  · intro u s i hi
    obtain ⟨t, ht, -, -, hkn, -⟩ := rememberCard_some u s i hi
    refine ⟨t, ht, ?_⟩
    rw [hkn, Finset.union_comm]
    rfl
  · intro ops s
    obtain ⟨t, ht, -, hkn⟩ := applyAll_known ops s
    exact ⟨t, ht, hkn, Finset.card_le_card hkn⟩

/-- C9 at two rows whose lesson cells are the number `1` and the text `"1"`:
every label is all-digit, and `uniqueSortedLessons` returns `[1, 1]`, the same
lesson twice, so the list is not strictly increasing. -/
theorem C9_numeric_lesson_listed_twice :
    (∀ r ∈ [rowNumberOne, rowTextOne], allDigits r.Lesson.toStr = true) ∧
      uniqueSortedLessons sampleCompare [rowNumberOne, rowTextOne] = [.num 1, .num 1] ∧
      ¬ ((uniqueSortedLessons sampleCompare [rowNumberOne, rowTextOne]).map
          Cell.toNumber).Sorted (· < ·) := by
  decide

/-- C10 at one row whose lesson cell is the text `"01"`: the menu offers the
lesson `1` with the value `"1"`, and selecting it builds an empty deck, the
page showing that the lesson has no rows. -/
theorem C10_menu_lesson_without_cards :
    uniqueSortedLessons sampleCompare [rowTextZeroOne] = [.num 1] ∧
      lessonOptions (loadLevel sampleCompare [rowTextZeroOne] State.init) = ["", "1"] ∧
      (onLessonChange "1" randZero
        (loadLevel sampleCompare [rowTextZeroOne] State.init)).filtered = some [] ∧
      (onLessonChange "1" randZero
        (loadLevel sampleCompare [rowTextZeroOne] State.init)).indices = [] ∧
      (onLessonChange "1" randZero
        (loadLevel sampleCompare [rowTextZeroOne] State.init)).currentIdx = none ∧
      (onLessonChange "1" randZero
        (loadLevel sampleCompare [rowTextZeroOne] State.init)).emptyText = .noData := by
  decide

end KanjiFlashCard
